import Mathlib

/-!
Shallow embedding of the download-orchestration core of icnx-rs
(src/commands.rs, src/downloader/mod.rs, src/downloader/session_db.rs,
src/core/model.rs, src/data/mod.rs), together with theorems settling the
spec claims about it.

Conventions of the embedding:
* Rust `String`/`&str` become Lean `String`; the character-level Rust
  string primitives (`split`, `contains`, `ends_with`, `trim_end_matches`)
  are embedded as structurally recursive functions over `String.data` so
  that every definition evaluates inside the kernel.
* Machine integers (`u32`, `u64`, `usize`, `i64`) become `Nat`/`Int`; none
  of the embedded code paths can overflow them on realistic inputs, and no
  wrap-around arithmetic is performed by the source.
* Floating-point metric fields (`f32` progress, `f64` speed) are carried
  as `Rat`: the embedded code only stores and returns them verbatim, it
  never computes with them.
* Fallible Rust code returning `Result<T, E>` becomes `Except E T`.
* Global mutable registries (session-token map, pause-flag map) become
  explicit state values threaded through the operations.
* The streaming HTTP body is modelled as the list of the sizes of the
  chunks the response yields, in order; wall-clock quantities (speed, eta)
  that the source derives from `Instant::now` are not modelled.
-/

namespace Icnx

/-! ## Character-level string primitives (Rust `str` operations) -/

/-- Rust `s.split(c)`: splits on every occurrence of the character `c`,
keeping empty pieces, always returning at least one piece. -/
def splitChar (c : Char) : List Char → List (List Char)
  | [] => [[]]
  | x :: xs =>
    match splitChar c xs with
    | [] => [[]]
    | y :: ys => if x = c then [] :: y :: ys else (x :: y) :: ys

/-- Rust `s.contains(pat)` for a string pattern: substring occurrence. -/
def hasSubstr (pat : List Char) : List Char → Bool
  | [] => pat.isEmpty
  | x :: xs => pat.isPrefixOf (x :: xs) || hasSubstr pat xs

/-- Rust `str::contains` lifted to `String`. -/
def strContainsStr (s pat : String) : Bool := hasSubstr pat.data s.data

/-- Rust `s.trim_end_matches('.')`: removes every trailing `'.'`. -/
def trimEndDots (l : List Char) : List Char := (l.reverse.dropWhile (· = '.')).reverse

/-- Rust `&str::len` (UTF-8 byte length). -/
def byteLen (l : List Char) : Nat := l.foldl (fun n c => n + c.utf8Size) 0

/-- Rust `s.ends_with('.')`. -/
def endsWithDot (l : List Char) : Bool := l.getLast? = some '.'

/-- Rust `s.contains('.')`. -/
def containsDot (l : List Char) : Bool := l.any (· = '.')

/-! ## Data model (src/core/model.rs, src/data/mod.rs, downloader/mod.rs) -/

/-- `core::model::DownloadItem`: url, optional filename/title/type, headers. -/
structure DownloadItem where
  url : String
  filename : Option String
  title : Option String
  type : Option String
  headers : List (String × String)
deriving DecidableEq, Repr

/-- `downloader::QueueItem`: id, item, destination directory. -/
structure QueueItem where
  id : String
  item : DownloadItem
  dir : String
deriving DecidableEq, Repr

/-- `downloader::DownloadStatus`. The `Running` metric payload is carried
as rationals (`f32`/`f64` in the source); `eta` is in whole seconds. -/
inductive DownloadStatus where
  | Queued : DownloadStatus
  | Running (progress : Rat) (downloaded : Nat) (total : Option Nat) (speed : Rat) (eta : Option Nat) : DownloadStatus
  | Completed (size : Nat) (path : String) : DownloadStatus
  | Failed (msg : String) : DownloadStatus
  | Canceled : DownloadStatus
deriving DecidableEq, Repr

/-- `data::Theme`. -/
inductive Theme where
  | Light : Theme
  | Dark : Theme
deriving DecidableEq, Repr

/-- `data::Settings`. -/
structure Settings where
  default_download_dir : String
  max_concurrent : Nat
  retries : Nat
  backoff_ms : Nat
  user_agent : String
  theme : Theme
  language : String
  enable_crash_reports : Bool
  enable_logging : Bool
  auto_close_downloads : Bool
deriving DecidableEq, Repr

/-- `data::DownloadRecord` (the JSON history record). -/
structure DownloadRecord where
  id : String
  session_id : String
  url : String
  filename : String
  dir : String
  size : Option Nat
  status : String
  file_type : Option String
  script_name : Option String
  source_url : Option String
  created_at : Int
deriving DecidableEq, Repr

/-! ## Filename resolution -/

/-- The shared URL-segment computation: Rust
`url.split('/').last().unwrap_or("download").split('?').next().unwrap_or("download")`
(commands.rs `determine_filename` and downloader `download_once_with_emit`). -/
def urlLastSegment (url : String) : List Char :=
  (splitChar '?' ((splitChar '/' url.data).getLastD "download".data)).headD "download".data

/-- The content-type → extension mapping of commands.rs `determine_filename`
(the same `if`/`else if` chain appears in the dead `download_once`). -/
def contentTypeExt (contentType : String) : String :=
  if strContainsStr contentType "jpeg" || strContainsStr contentType "jpg" then "jpg"
  else if strContainsStr contentType "png" then "png"
  else if strContainsStr contentType "gif" then "gif"
  else if strContainsStr contentType "webp" then "webp"
  else if strContainsStr contentType "mp4" then "mp4"
  else if strContainsStr contentType "webm" then "webm"
  else if strContainsStr contentType "pdf" then "pdf"
  else if strContainsStr contentType "zip" then "zip"
  else if strContainsStr contentType "json" then "json"
  else if strContainsStr contentType "text" then "txt"
  else "bin"

/-- commands.rs `determine_filename(url, content_type)`: last URL segment
with query stripped when it has a non-trailing dot and byte length > 1,
otherwise that segment (trailing dots stripped) plus the mapped extension. -/
def determine_filename (url contentType : String) : String :=
  let uf := urlLastSegment url
  if containsDot uf && !endsWithDot uf && byteLen uf > 1 then String.mk uf
  else String.mk (trimEndDots uf) ++ "." ++ contentTypeExt contentType

/-- The filename resolution inside downloader `download_once_with_emit`:
the explicit item filename when present; else the last URL segment with
query stripped when it has a non-trailing dot; else that segment plus
`"json"` when the response content-type contains `"json"`, else `"bin"`.
The item's declared type plays no part here. -/
def exec_filename (item : DownloadItem) (contentType : String) : String :=
  match item.filename with
  | some f => f
  | none =>
    let uf := urlLastSegment item.url
    if containsDot uf && !endsWithDot uf then String.mk uf
    else
      let ext := if strContainsStr contentType "json" then "json" else "bin"
      String.mk (trimEndDots uf) ++ "." ++ ext

/-! ## Transfer executor (downloader `download_once_with_emit`) -/

/-- The observable part of an HTTP response: status code, content-type
header, optional parsed content-length, and the body as a list of chunk
sizes delivered in order. -/
structure HttpResponse where
  status : Nat
  contentType : String
  contentLength : Option Nat
  chunks : List Nat
deriving DecidableEq, Repr

/-- `reqwest::StatusCode::is_success`: 200 ≤ code ≤ 299. -/
def statusIsSuccess (code : Nat) : Bool := 200 ≤ code && code < 300

/-- One executor attempt, downloader `download_once_with_emit`.
`cancelAt = some i` means the cancellation token is observed as fired at
the check preceding the `i`-th chunk read (there are `chunks.length + 1`
such checks, the last preceding the end-of-stream read); `none` means it
never fires during the attempt. The pause loop only delays reads and does
not change the outcome, so it does not appear. Returns `Err` for a non-2xx
status or a content-length mismatch, `Ok Canceled` when cancellation
trips (after deleting the partial file), and `Ok (Completed size path)`
otherwise. -/
def download_once_with_emit (q : QueueItem) (resp : HttpResponse) (cancelAt : Option Nat) : Except String DownloadStatus :=
  if !statusIsSuccess resp.status then
    Except.error ("HTTP " ++ toString resp.status)
  else
    let filename := exec_filename q.item resp.contentType
    let cancelled : Bool := match cancelAt with
      | some i => decide (i ≤ resp.chunks.length)
      | none => false
    if cancelled then Except.ok DownloadStatus.Canceled
    else
      let downloaded := resp.chunks.sum
      match resp.contentLength with
      | some expected =>
        if downloaded ≠ expected then
          Except.error ("Incomplete download: expected " ++ toString expected ++ " bytes, got " ++ toString downloaded ++ " bytes")
        else Except.ok (DownloadStatus.Completed downloaded (q.dir ++ "/" ++ filename))
      | none => Except.ok (DownloadStatus.Completed downloaded (q.dir ++ "/" ++ filename))

/-- `msg` cites `sub`: `sub` occurs verbatim inside `msg`. -/
def Cites (msg sub : String) : Prop := ∃ pre post, msg = pre ++ sub ++ post

/-! ## Retry wrapper (downloader `Downloader::download_with_progress`)

The source loops: before each attempt it checks the cancellation token
(returning `Canceled` when fired); an attempt returning `Ok(status)` ends
the loop with that status; an attempt returning `Err(e)` increments the
attempt counter, returns `Failed(e)` once the counter exceeds `retries`,
and otherwise sleeps `backoff_ms * counter` before the next attempt.

The environment of attempt `i` (0-based) is abstracted by two functions:
`cancelled i` is the token state observed at the check preceding attempt
`i`, and `att i` is what `download_once_with_emit` returns for attempt
`i`. The run result records the terminal status, the list of back-off
sleeps performed (in ms, in order), and how many attempts were made. -/

structure RetryRun where
  status : DownloadStatus
  sleeps : List Nat
  attempts : Nat
deriving DecidableEq, Repr

/-- The retry loop, recursing on the number of retries still allowed
(`remaining = retries - i` for the attempt index `i`). -/
def retryLoop (cancelled : Nat → Bool) (att : Nat → Except String DownloadStatus) (backoff : Nat) : Nat → Nat → RetryRun
  | i, remaining =>
    if cancelled i then ⟨DownloadStatus.Canceled, [], 0⟩
    else
      match att i with
      | Except.ok s => ⟨s, [], 1⟩
      | Except.error e =>
        match remaining with
        | 0 => ⟨DownloadStatus.Failed e, [], 1⟩
        | r + 1 =>
          let rest := retryLoop cancelled att backoff (i + 1) r
          ⟨rest.status, backoff * (i + 1) :: rest.sleeps, rest.attempts + 1⟩

/-- `Downloader::download_with_progress` after the permit acquisition:
the retry loop started at attempt 0 with `retries` retries allowed. -/
def download_with_progress (cancelled : Nat → Bool) (att : Nat → Except String DownloadStatus) (retries backoff : Nat) : RetryRun :=
  retryLoop cancelled att backoff 0 retries

/-! ## Session registry (downloader globals `GLOBAL_SESSION_TOKENS`) -/

/-- The global session registry state: the map session-id → token
(tokens named by numeric identity) and the fired-state of every token. -/
structure SessionRegistry where
  tokens : String → Option Nat
  fired : Nat → Bool

/-- `register_session_token`: insert-or-overwrite. -/
def register_session_token (st : SessionRegistry) (sid : String) (tok : Nat) : SessionRegistry :=
  { st with tokens := fun s => if s = sid then some tok else st.tokens s }

/-- `unregister_session_token`: silent removal. -/
def unregister_session_token (st : SessionRegistry) (sid : String) : SessionRegistry :=
  { st with tokens := fun s => if s = sid then none else st.tokens s }

/-- `cancel_session`: remove the entry and fire its token, returning
whether an entry existed; a miss leaves the state untouched. -/
def cancel_session (st : SessionRegistry) (sid : String) : Bool × SessionRegistry :=
  match st.tokens sid with
  | some tok =>
    (true,
      { tokens := fun s => if s = sid then none else st.tokens s,
        fired := fun t => if t = tok then true else st.fired t })
  | none => (false, st)

/-! ## Pause registry (downloader globals `GLOBAL_PAUSE_FLAGS`) -/

/-- The pause-flag map. Each entry is the boolean held by the session's
shared `AtomicBool`. -/
def PauseMap : Type := String → Option Bool

/-- `set_session_paused`: create the entry (initially false) when absent,
then store `paused` — net effect, the entry holds `paused`. -/
def set_session_paused (m : PauseMap) (sid : String) (paused : Bool) : PauseMap :=
  fun s => if s = sid then some paused else m s

/-- `is_session_paused`: the flag's value, or false when no entry exists. -/
def is_session_paused (m : PauseMap) (sid : String) : Bool :=
  (m sid).getD false

/-- `remove_session_pause_flag`: delete the entry. -/
def remove_session_pause_flag (m : PauseMap) (sid : String) : PauseMap :=
  fun s => if s = sid then none else m s

/-! ## Per-session progress store (session_db.rs) -/

/-- One row of the `progress` table (`url` is the primary key). -/
structure ProgressRecord where
  url : String
  filename : String
  progress : Rat
  downloaded : Nat
  total : Option Nat
  speed : Rat
  eta : Option Nat
  status : String
  updated_at : Int
deriving DecidableEq, Repr

/-- The arguments of one progress write (`WriteJob` minus the db path;
`now` is the `Utc::now().timestamp()` the writer takes at execution). -/
structure ProgressWrite where
  url : String
  filename : String
  progress : Rat
  downloaded : Nat
  total : Option Nat
  speed : Rat
  eta : Option Nat
  status : String
  now : Int
deriving DecidableEq, Repr

/-- The row a write produces. -/
def ProgressWrite.record (w : ProgressWrite) : ProgressRecord :=
  ⟨w.url, w.filename, w.progress, w.downloaded, w.total, w.speed, w.eta, w.status, w.now⟩

/-- `SessionDb::upsert_progress` (the same statement runs in the
background writer): `INSERT .. ON CONFLICT(url) DO UPDATE SET` every
non-key column from the excluded row — when a row with the url exists it
is overwritten in place, otherwise the new row is appended. -/
def upsert_progress (tbl : List ProgressRecord) (w : ProgressWrite) : List ProgressRecord :=
  if tbl.any (fun row => row.url = w.url) then
    tbl.map (fun row => if row.url = w.url then w.record else row)
  else tbl ++ [w.record]

/-- A drained job queue: the writes applied in submission order. -/
def apply_writes (tbl : List ProgressRecord) (ws : List ProgressWrite) : List ProgressRecord :=
  ws.foldl upsert_progress tbl

/-- `SessionDb::read_all`: every row, ordered by `updated_at DESC`. -/
def read_all (tbl : List ProgressRecord) : List ProgressRecord :=
  tbl.insertionSort (fun a b => b.updated_at ≤ a.updated_at)

/-- The table invariant enforced by the `url` primary key. -/
def UrlsNodup (tbl : List ProgressRecord) : Prop :=
  (tbl.map (fun row => row.url)).Nodup

/-! ## History summary (commands.rs `get_download_history`) -/

/-- The status component of one `DownloadSessionSummary`: the source
folds the session's records into `has_completed` / `has_failed` /
`has_other` flags and picks Failed, Completed, Mixed or Incomplete. -/
def summary_status (recs : List DownloadRecord) : String :=
  let hasCompleted := recs.any (fun r => r.status = "Completed")
  let hasFailed := recs.any (fun r => r.status = "Failed")
  let hasOther := recs.any (fun r => r.status ≠ "Completed" ∧ r.status ≠ "Failed")
  if hasFailed && !hasCompleted then "Failed"
  else if hasCompleted && !hasFailed && !hasOther then "Completed"
  else if hasFailed && hasCompleted then "Mixed"
  else "Incomplete"

/-! ## quick_download result mapping (commands.rs `quick_download`) -/

/-- The tail of `quick_download`: how the terminal `DownloadStatus` of
`downloader.download(..)` is mapped onto the command's `Result`. -/
def quick_download_result (st : DownloadStatus) : Except String String :=
  match st with
  | DownloadStatus.Completed _ _ => Except.ok "Download completed successfully"
  | DownloadStatus.Failed err => Except.error ("Download failed: " ++ err)
  | DownloadStatus.Canceled => Except.error "Download was canceled"
  | _ => Except.error "Download is in progress"

/-! ## Concurrency limiter (downloader `Downloader::new` / the semaphore) -/

/-- The state of a `Downloader` relevant to the claims: its user agent
and the number of permits its semaphore was created with. -/
structure Downloader where
  user_agent : String
  semaphorePermits : Nat
deriving DecidableEq, Repr

/-- `Downloader::new`: the semaphore is sized `max(1, settings.max_concurrent)`. -/
def Downloader.new (settings : Settings) : Downloader :=
  { user_agent := settings.user_agent, semaphorePermits := max 1 settings.max_concurrent }

/-- `Downloader::with_concurrency`: the semaphore is sized `max(1, concurrency)`. -/
def Downloader.with_concurrency (settings : Settings) (concurrency : Nat) : Downloader :=
  { user_agent := settings.user_agent, semaphorePermits := max 1 concurrency }

/-- An event at the semaphore: an executor acquiring its permit before
network I/O, or releasing it on completion. -/
inductive SemEvent where
  | acquire : SemEvent
  | release : SemEvent
deriving DecidableEq, Repr

/-- Validity of an interleaving at a semaphore with `n` permits, starting
from `a` permits held: an acquire can only happen while a permit is free
(the caller suspends otherwise), a release only while a permit is held. -/
def semOk (n : Nat) : Nat → List SemEvent → Bool
  | _, [] => true
  | a, SemEvent.acquire :: t => decide (a < n) && semOk n (a + 1) t
  | a, SemEvent.release :: t => decide (0 < a) && semOk n (a - 1) t

/-- The largest number of permits simultaneously held along a trace. -/
def maxActive (a : Nat) : List SemEvent → Nat
  | [] => a
  | SemEvent.acquire :: t => max a (maxActive (a + 1) t)
  | SemEvent.release :: t => max a (maxActive (a - 1) t)

/-! ## Theorems -/

/-- C1, counterexample: the claim asserts that the transfer executor's
filename resolution maps content-type `image/png` to extension `png`, so
that a URL ending `/image` with content-type `image/png` yields a
filename ending `.png`. The executor (`download_once_with_emit`) actually
yields `image.bin` there: its fallback maps only `json`, everything else
to `bin`. -/
theorem C1_filename_counterexample :
    exec_filename ⟨"https://example.com/image", none, none, none, []⟩ "image/png" = "image.bin" ∧
    (".png".data.isSuffixOf
      (exec_filename ⟨"https://example.com/image", none, none, none, []⟩ "image/png").data) = false := by
  constructor
  · decide
  · decide

/-- C1, amended: for every queue item the executor resolution order is:
the explicit item filename if present; otherwise the last URL path
segment with its query string stripped, provided that segment contains a
non-trailing dot; otherwise that segment (trailing dots removed) with
extension `json` when the response content-type contains `json` and the
generic `bin` otherwise — the item's declared type is ignored. The full
mapping jpeg/jpg→jpg, png→png, …, text→txt, else bin belongs to the
direct-download helper `determine_filename` (commands.rs), where the two
spec examples hold; in the executor, `file.jpg?query=1` still resolves to
`file.jpg` but `/image` with content-type `image/png` does not get
`.png`. -/
theorem C1_filename_resolution :
    (∀ item ct f, item.filename = some f → exec_filename item ct = f) ∧
    (∀ item ct, item.filename = none →
      containsDot (urlLastSegment item.url) = true →
      endsWithDot (urlLastSegment item.url) = false →
      exec_filename item ct = String.mk (urlLastSegment item.url)) ∧
    (∀ item ct, item.filename = none →
      (containsDot (urlLastSegment item.url) && !endsWithDot (urlLastSegment item.url)) = false →
      exec_filename item ct =
        String.mk (trimEndDots (urlLastSegment item.url)) ++ "." ++
          (if strContainsStr ct "json" then "json" else "bin")) ∧
    (∀ item ct t, exec_filename { item with type := t } ct = exec_filename item ct) ∧
    exec_filename ⟨"https://example.com/file.jpg?query=1", none, none, none, []⟩ "image/png" = "file.jpg" ∧
    determine_filename "https://example.com/image" "image/png" = "image.png" ∧
    determine_filename "https://example.com/file.jpg?query=1" "image/jpeg" = "file.jpg" := by
  refine ⟨?_, ?_, ?_, ?_, ?_, ?_, ?_⟩
  · intro item ct f h
    simp [exec_filename, h]
  · intro item ct h hdot hend
    simp [exec_filename, h, hdot, hend]
  · intro item ct h hcond
    simp only [exec_filename, h]
    simp [hcond]
  · intro item ct t
    rfl
  · decide
  · decide
  · decide

/-- C1, witness for the amended resolution at concrete inputs. -/
theorem C1_filename_witness :
    exec_filename ⟨"https://e.com/a", some "explicit.bin", none, none, []⟩ "image/png" = "explicit.bin" ∧
    exec_filename ⟨"https://e.com/x/file.jpg?query=1", none, none, none, []⟩ "text/html" =
      String.mk (urlLastSegment "https://e.com/x/file.jpg?query=1") := by
  constructor
  · exact C1_filename_resolution.1 ⟨"https://e.com/a", some "explicit.bin", none, none, []⟩ "image/png" "explicit.bin" rfl
  · exact C1_filename_resolution.2.1 ⟨"https://e.com/x/file.jpg?query=1", none, none, none, []⟩
      "text/html" rfl (by decide) (by decide)

/-- C2: when the response declared a content-length, an uncancelled
executor attempt ends `Completed` exactly when the bytes written equal
the declared length; any mismatch is an error whose message cites both
the expected and the received byte counts, and every `Completed` outcome
carries exactly the declared size — never a silent acceptance. -/
theorem C2_content_length_verification (q : QueueItem) (resp : HttpResponse) (expected : Nat)
    (hs : statusIsSuccess resp.status = true)
    (hl : resp.contentLength = some expected) :
    ((∃ p, download_once_with_emit q resp none =
        Except.ok (DownloadStatus.Completed resp.chunks.sum p)) ↔ resp.chunks.sum = expected) ∧
    (∀ sz p, download_once_with_emit q resp none = Except.ok (DownloadStatus.Completed sz p) →
      sz = expected ∧ sz = resp.chunks.sum) ∧
    (resp.chunks.sum ≠ expected →
      ∃ msg, download_once_with_emit q resp none = Except.error msg ∧
        Cites msg (toString expected) ∧ Cites msg (toString resp.chunks.sum)) := by
  have hred : download_once_with_emit q resp none =
      if resp.chunks.sum ≠ expected then
        Except.error ("Incomplete download: expected " ++ toString expected ++ " bytes, got " ++
          toString resp.chunks.sum ++ " bytes")
      else Except.ok (DownloadStatus.Completed resp.chunks.sum
        (q.dir ++ "/" ++ exec_filename q.item resp.contentType)) := by
    simp [download_once_with_emit, hs, hl]
  by_cases hde : resp.chunks.sum = expected
  · rw [hred, if_neg (by simpa using hde)]
    refine ⟨⟨fun _ => hde, fun _ => ⟨_, rfl⟩⟩, ?_, fun hne => absurd hde hne⟩
    intro sz p hok
    have hsz : resp.chunks.sum = sz := by
      have := hok
      simp only [Except.ok.injEq, DownloadStatus.Completed.injEq] at this
      exact this.1
    exact ⟨hsz.symm.trans hde, hsz.symm⟩
  · rw [hred, if_pos (by simpa using hde)]
    refine ⟨?_, ?_, ?_⟩
    · constructor
      · rintro ⟨p, hp⟩
        cases hp
      · intro h
        exact absurd h hde
    · intro sz p hok
      cases hok
    · intro _
      refine ⟨_, rfl, ⟨"Incomplete download: expected ",
        " bytes, got " ++ toString resp.chunks.sum ++ " bytes", ?_⟩,
        ⟨"Incomplete download: expected " ++ toString expected ++ " bytes, got ",
        " bytes", ?_⟩⟩
      · simp [String.append_assoc]
      · simp [String.append_assoc]

/-- One unfolding of the retry loop when the token has fired at the check. -/
theorem retryLoop_cancel (c : Nat → Bool) (att : Nat → Except String DownloadStatus)
    (b i remaining : Nat) (h : c i = true) :
    retryLoop c att b i remaining = ⟨DownloadStatus.Canceled, [], 0⟩ := by
  rw [retryLoop]
  simp [h]

/-- One unfolding of the retry loop when the attempt returns a status. -/
theorem retryLoop_ok (c : Nat → Bool) (att : Nat → Except String DownloadStatus)
    (b i remaining : Nat) (s : DownloadStatus)
    (hc : c i = false) (h : att i = Except.ok s) :
    retryLoop c att b i remaining = ⟨s, [], 1⟩ := by
  rw [retryLoop]
  simp [hc, h]

/-- One unfolding of the retry loop when the attempt errors with no retries left. -/
theorem retryLoop_err_zero (c : Nat → Bool) (att : Nat → Except String DownloadStatus)
    (b i : Nat) (e : String) (hc : c i = false) (h : att i = Except.error e) :
    retryLoop c att b i 0 = ⟨DownloadStatus.Failed e, [], 1⟩ := by
  rw [retryLoop]
  simp [hc, h]

/-- One unfolding of the retry loop when the attempt errors with retries left. -/
theorem retryLoop_err_succ (c : Nat → Bool) (att : Nat → Except String DownloadStatus)
    (b i r : Nat) (e : String) (hc : c i = false) (h : att i = Except.error e) :
    retryLoop c att b i (r + 1) =
      ⟨(retryLoop c att b (i + 1) r).status,
        b * (i + 1) :: (retryLoop c att b (i + 1) r).sleeps,
        (retryLoop c att b (i + 1) r).attempts + 1⟩ := by
  rw [retryLoop]
  simp [hc, h]

/-- Unfolding the back-off sleep schedule by one step. -/
theorem range_map_mul_shift (b i r : Nat) :
    (List.range (r + 1)).map (fun k => b * (i + 1 + k)) =
      b * (i + 1) :: (List.range r).map (fun k => b * (i + 1 + 1 + k)) := by
  rw [List.range_succ_eq_map, List.map_cons, List.map_map]
  refine congrArg₂ List.cons (by ring) ?_
  apply List.map_congr_left
  intro a _
  simp only [Function.comp_apply, Nat.succ_eq_add_one]
  ring

/-- The sleep schedule started at attempt 0, in its two spellings. -/
theorem range_map_mul_base (b n : Nat) :
    (List.range n).map (fun j => b * (1 + j)) = (List.range n).map (fun j => b * (j + 1)) := by
  apply List.map_congr_left
  intro a _
  ring

/-- The retry loop performs at most `remaining + 1` attempts. -/
theorem retryLoop_attempts_le (c : Nat → Bool) (att : Nat → Except String DownloadStatus)
    (b : Nat) : ∀ remaining i, (retryLoop c att b i remaining).attempts ≤ remaining + 1 := by
  intro remaining
  induction remaining with
  | zero =>
    intro i
    cases hc : c i with
    | true => simp [retryLoop_cancel c att b i 0 hc]
    | false =>
      cases hatt : att i with
      | ok s => simp [retryLoop_ok c att b i 0 s hc hatt]
      | error e => simp [retryLoop_err_zero c att b i e hc hatt]
  | succ r ih =>
    intro i
    cases hc : c i with
    | true => simp [retryLoop_cancel c att b i (r + 1) hc]
    | false =>
      cases hatt : att i with
      | ok s => simp [retryLoop_ok c att b i (r + 1) s hc hatt]
      | error e =>
        rw [retryLoop_err_succ c att b i r e hc hatt]
        have := ih (i + 1)
        simp only []
        omega

/-- When every attempt errors and the token never fires, the loop exhausts
all retries: the last error is reported, `remaining + 1` attempts are made
and the `k`-th back-off sleep is `b * (attempt-number k + 1)`. -/
theorem retryLoop_all_fail (c : Nat → Bool) (att : Nat → Except String DownloadStatus)
    (b : Nat) (msg : Nat → String) :
    ∀ remaining i,
      (∀ j, i ≤ j → j ≤ i + remaining → c j = false) →
      (∀ j, i ≤ j → j ≤ i + remaining → att j = Except.error (msg j)) →
      retryLoop c att b i remaining =
        ⟨DownloadStatus.Failed (msg (i + remaining)),
          (List.range remaining).map (fun k => b * (i + 1 + k)), remaining + 1⟩ := by
  intro remaining
  induction remaining with
  | zero =>
    intro i hc hatt
    rw [retryLoop_err_zero c att b i (msg i) (hc i le_rfl (by omega)) (hatt i le_rfl (by omega))]
    simp
  | succ r ih =>
    intro i hc hatt
    rw [retryLoop_err_succ c att b i r (msg i) (hc i le_rfl (by omega)) (hatt i le_rfl (by omega))]
    rw [ih (i + 1) (fun j h1 h2 => hc j (by omega) (by omega)) (fun j h1 h2 => hatt j (by omega) (by omega))]
    have hmsg : i + 1 + r = i + (r + 1) := by omega
    rw [hmsg, range_map_mul_shift]

/-- When the first `k` attempts error, the token never fires through
attempt `k`, and attempt `k` returns a status, the loop ends with that
status after `k + 1` attempts. -/
theorem retryLoop_first_success (c : Nat → Bool) (att : Nat → Except String DownloadStatus)
    (b : Nat) (msg : Nat → String) (s : DownloadStatus) :
    ∀ k i remaining, k ≤ remaining →
      (∀ j, i ≤ j → j ≤ i + k → c j = false) →
      (∀ j, i ≤ j → j < i + k → att j = Except.error (msg j)) →
      att (i + k) = Except.ok s →
      retryLoop c att b i remaining = ⟨s, (List.range k).map (fun j => b * (i + 1 + j)), k + 1⟩ := by
  intro k
  induction k with
  | zero =>
    intro i remaining _ hc _ hok
    rw [retryLoop_ok c att b i remaining s (hc i le_rfl (by omega)) (by simpa using hok)]
    simp
  | succ k ih =>
    intro i remaining hk hc hatt hok
    obtain ⟨r, rfl⟩ : ∃ r, remaining = r + 1 := ⟨remaining - 1, by omega⟩
    rw [retryLoop_err_succ c att b i r (msg i) (hc i le_rfl (by omega)) (hatt i le_rfl (by omega))]
    rw [ih (i + 1) r (by omega) (fun j h1 h2 => hc j (by omega) (by omega))
      (fun j h1 h2 => hatt j (by omega) (by omega))
      (by have h : i + 1 + k = i + (k + 1) := by omega
          rw [h]
          exact hok)]
    rw [range_map_mul_shift]

/-- When the first `k` attempts error and the token is observed fired at
the check preceding attempt `k`, the loop returns `Canceled` immediately,
having made only those `k` attempts. -/
theorem retryLoop_cancelled_at (c : Nat → Bool) (att : Nat → Except String DownloadStatus)
    (b : Nat) (msg : Nat → String) :
    ∀ k i remaining, k ≤ remaining →
      (∀ j, i ≤ j → j < i + k → c j = false ∧ att j = Except.error (msg j)) →
      c (i + k) = true →
      retryLoop c att b i remaining =
        ⟨DownloadStatus.Canceled, (List.range k).map (fun j => b * (i + 1 + j)), k⟩ := by
  intro k
  induction k with
  | zero =>
    intro i remaining _ _ hfired
    rw [retryLoop_cancel c att b i remaining (by simpa using hfired)]
    simp
  | succ k ih =>
    intro i remaining hk hprev hfired
    obtain ⟨r, rfl⟩ : ∃ r, remaining = r + 1 := ⟨remaining - 1, by omega⟩
    obtain ⟨hci, hai⟩ := hprev i le_rfl (by omega)
    rw [retryLoop_err_succ c att b i r (msg i) hci hai]
    rw [ih (i + 1) r (by omega) (fun j h1 h2 => hprev j (by omega) (by omega))
      (by have h : i + 1 + k = i + (k + 1) := by omega
          rw [h]
          exact hfired)]
    rw [range_map_mul_shift]

/-- C3: the retry wrapper makes at most `retries + 1` attempts; when every
attempt errors (no cancellation) it returns `Failed` with the last error's
message after `retries + 1` attempts, sleeping `backoff * n` after the
`n`-th failed attempt; the first attempt returning a terminal status ends
the loop with that status; and when the token is observed fired at the
check preceding an attempt, `Canceled` is returned immediately with no
further attempts. -/
theorem C3_retry_policy (cancelled : Nat → Bool) (att : Nat → Except String DownloadStatus)
    (retries backoff : Nat) (msg : Nat → String) :
    (download_with_progress cancelled att retries backoff).attempts ≤ retries + 1 ∧
    ((∀ j, j ≤ retries → cancelled j = false) →
      (∀ j, j ≤ retries → att j = Except.error (msg j)) →
      download_with_progress cancelled att retries backoff =
        ⟨DownloadStatus.Failed (msg retries),
          (List.range retries).map (fun k => backoff * (k + 1)), retries + 1⟩) ∧
    (∀ k s, k ≤ retries →
      (∀ j, j ≤ k → cancelled j = false) →
      (∀ j, j < k → att j = Except.error (msg j)) →
      att k = Except.ok s →
      download_with_progress cancelled att retries backoff =
        ⟨s, (List.range k).map (fun j => backoff * (j + 1)), k + 1⟩) ∧
    (∀ k, k ≤ retries →
      (∀ j, j < k → cancelled j = false ∧ att j = Except.error (msg j)) →
      cancelled k = true →
      download_with_progress cancelled att retries backoff =
        ⟨DownloadStatus.Canceled, (List.range k).map (fun j => backoff * (j + 1)), k⟩) := by
  refine ⟨retryLoop_attempts_le cancelled att backoff retries 0, ?_, ?_, ?_⟩
  · intro hc hatt
    have h := retryLoop_all_fail cancelled att backoff msg retries 0
      (fun j h1 h2 => hc j (by omega)) (fun j h1 h2 => hatt j (by omega))
    simp only [download_with_progress]
    rw [h]
    simp only [Nat.zero_add]
    rw [range_map_mul_base]
  · intro k s hk hc hatt hok
    have h := retryLoop_first_success cancelled att backoff msg s k 0 retries hk
      (fun j h1 h2 => hc j (by omega)) (fun j h1 h2 => hatt j (by omega)) (by simpa using hok)
    simp only [download_with_progress]
    rw [h]
    simp only [Nat.zero_add]
    rw [range_map_mul_base]
  · intro k hk hprev hfired
    have h := retryLoop_cancelled_at cancelled att backoff msg k 0 retries hk
      (fun j h1 h2 => hprev j (by omega)) (by simpa using hfired)
    simp only [download_with_progress]
    rw [h]
    simp only [Nat.zero_add]
    rw [range_map_mul_base]

/-- C3, witness: one failing attempt (HTTP 500) then a successful one with
retries = 1 and base delay 10 ends with the success status, 512 bytes,
after one back-off sleep of 10 and 2 attempts. -/
theorem C3_retry_witness :
    download_with_progress (fun _ => false)
      (fun j => if j = 0 then Except.error "HTTP 500 Internal Server Error"
                else Except.ok (DownloadStatus.Completed 512 "/tmp/file.bin"))
      1 10 = ⟨DownloadStatus.Completed 512 "/tmp/file.bin", [10], 2⟩ := by
  have h := (C3_retry_policy (fun _ => false)
      (fun j => if j = 0 then Except.error "HTTP 500 Internal Server Error"
                else Except.ok (DownloadStatus.Completed 512 "/tmp/file.bin"))
      1 10 (fun _ => "HTTP 500 Internal Server Error")).2.2.1 1
      (DownloadStatus.Completed 512 "/tmp/file.bin") le_rfl
      (fun j _ => rfl)
      (fun j hj => by
        have hj0 : j = 0 := by omega
        subst hj0
        rfl)
      rfl
  rw [h]
  decide

/-- C2, witness: declared content-length 2048 with 1024 bytes received is
rejected with a message citing 2048 and 1024. -/
theorem C2_content_length_witness :
    ∃ msg,
      download_once_with_emit ⟨"q1", ⟨"https://e.com/f.bin", none, none, none, []⟩, "/tmp"⟩
          ⟨200, "application/octet-stream", some 2048, [1024]⟩ none = Except.error msg ∧
      Cites msg (toString (2048 : Nat)) ∧ Cites msg (toString (1024 : Nat)) := by
  have h := (C2_content_length_verification
      ⟨"q1", ⟨"https://e.com/f.bin", none, none, none, []⟩, "/tmp"⟩
      ⟨200, "application/octet-stream", some 2048, [1024]⟩ 2048 (by decide) rfl).2.2
  have hsum : (([1024] : List Nat)).sum = 1024 := by decide
  simpa [hsum] using h (by decide)

/-- C4: cancelling a session removes its entry and fires its token,
returning true exactly when an entry existed; a miss (never registered or
already cancelled) changes nothing and returns false, so a second cancel
of the same id returns false and leaves the state as it was. -/
theorem C4_cancel_session (st : SessionRegistry) (sid : String) :
    ((cancel_session st sid).1 = true ↔ (st.tokens sid).isSome = true) ∧
    ((cancel_session st sid).2.tokens sid = none) ∧
    (∀ tok, st.tokens sid = some tok → (cancel_session st sid).2.fired tok = true) ∧
    (st.tokens sid = none → cancel_session st sid = (false, st)) ∧
    (cancel_session (cancel_session st sid).2 sid = (false, (cancel_session st sid).2)) := by
  have hmiss : ∀ (st2 : SessionRegistry), st2.tokens sid = none →
      cancel_session st2 sid = (false, st2) := by
    intro st2 h0
    simp [cancel_session, h0]
  cases h : st.tokens sid with
  | none =>
    refine ⟨by simp [cancel_session, h], by simp [cancel_session, h], ?_, fun _ => hmiss st h, ?_⟩
    · intro tok htok
      exact Option.noConfusion htok
    · have h2 : (cancel_session st sid).2.tokens sid = none := by simp [cancel_session, h]
      exact hmiss _ h2
  | some tok =>
    refine ⟨by simp [cancel_session, h], by simp [cancel_session, h], ?_, ?_, ?_⟩
    · intro tok2 htok2
      injection htok2 with he
      subst he
      simp [cancel_session, h]
    · intro hnone
      exact Option.noConfusion hnone
    · have h2 : (cancel_session st sid).2.tokens sid = none := by simp [cancel_session, h]
      exact hmiss _ h2

/-- C4, witness: cancelling a registered session succeeds and fires the
token; the second cancel of the same id reports not-found and changes
nothing. -/
theorem C4_cancel_session_witness :
    (cancel_session ⟨fun s => if s = "session-1" then some 7 else none, fun _ => false⟩ "session-1").1 = true ∧
    (cancel_session ⟨fun s => if s = "session-1" then some 7 else none, fun _ => false⟩ "session-1").2.fired 7 = true ∧
    cancel_session (cancel_session ⟨fun s => if s = "session-1" then some 7 else none, fun _ => false⟩ "session-1").2 "session-1" =
      (false, (cancel_session ⟨fun s => if s = "session-1" then some 7 else none, fun _ => false⟩ "session-1").2) := by
  refine ⟨?_, ?_, ?_⟩
  · exact (C4_cancel_session ⟨fun s => if s = "session-1" then some 7 else none, fun _ => false⟩ "session-1").1.mpr (by simp)
  · exact (C4_cancel_session ⟨fun s => if s = "session-1" then some 7 else none, fun _ => false⟩ "session-1").2.2.1 7 (by simp)
  · exact (C4_cancel_session ⟨fun s => if s = "session-1" then some 7 else none, fun _ => false⟩ "session-1").2.2.2.2

/-- A valid trace at a semaphore with `n` permits never holds more than
`n` permits at once. -/
theorem semOk_maxActive : ∀ (t : List SemEvent) (n a : Nat),
    semOk n a t = true → a ≤ n → maxActive a t ≤ n := by
  intro t
  induction t with
  | nil =>
    intro n a _ ha
    simpa [maxActive] using ha
  | cons e rest ih =>
    intro n a hok ha
    cases e with
    | acquire =>
      rw [semOk] at hok
      simp only [Bool.and_eq_true, decide_eq_true_eq] at hok
      rw [maxActive]
      exact max_le ha (ih n (a + 1) hok.2 (by omega))
    | release =>
      rw [semOk] at hok
      simp only [Bool.and_eq_true, decide_eq_true_eq] at hok
      rw [maxActive]
      exact max_le ha (ih n (a - 1) hok.2 (by omega))

/-- C5: the semaphore of a `Downloader` is sized `max(1, configured
concurrency)` — exactly the configured value when it is at least 1 — and
along any valid interleaving of permit acquisitions (each executor
acquires before network I/O) and releases, the number of simultaneously
held permits never exceeds that size. -/
theorem C5_concurrency_limit (settings : Settings) (t : List SemEvent) :
    (Downloader.new settings).semaphorePermits = max 1 settings.max_concurrent ∧
    1 ≤ (Downloader.new settings).semaphorePermits ∧
    (1 ≤ settings.max_concurrent →
      (Downloader.new settings).semaphorePermits = settings.max_concurrent) ∧
    (semOk (Downloader.new settings).semaphorePermits 0 t = true →
      maxActive 0 t ≤ (Downloader.new settings).semaphorePermits) := by
  refine ⟨rfl, ?_, ?_, ?_⟩
  · simp [Downloader.new]
  · intro h
    simp [Downloader.new]
    omega
  · intro hok
    exact semOk_maxActive t (Downloader.new settings).semaphorePermits 0 hok (by simp [Downloader.new])

/-- C5, witness: with configured concurrency 2, a trace with three
acquisitions (the third only after a release) is valid and never holds
more than 2 permits. -/
theorem C5_concurrency_witness :
    semOk 2 0 [SemEvent.acquire, SemEvent.acquire, SemEvent.release, SemEvent.acquire] = true ∧
    maxActive 0 [SemEvent.acquire, SemEvent.acquire, SemEvent.release, SemEvent.acquire] ≤
      (Downloader.new ⟨"/downloads", 2, 3, 1000, "ICNX/0.1", Theme.Dark, "en", false, false, false⟩).semaphorePermits := by
  refine ⟨by decide, ?_⟩
  exact (C5_concurrency_limit ⟨"/downloads", 2, 3, 1000, "ICNX/0.1", Theme.Dark, "en", false, false, false⟩
    [SemEvent.acquire, SemEvent.acquire, SemEvent.release, SemEvent.acquire]).2.2.2 (by decide)

/-- C8: querying the pause state of an id with no entry returns false;
after `set(id, b)` the query returns `b` (the entry is created when
absent and updated when present); after `remove(id)` the entry is gone
and the query returns false again. -/
theorem C8_pause_registry (m : PauseMap) (sid : String) (b : Bool) :
    (m sid = none → is_session_paused m sid = false) ∧
    (is_session_paused (set_session_paused m sid b) sid = b) ∧
    ((remove_session_pause_flag m sid) sid = none) ∧
    (is_session_paused (remove_session_pause_flag (set_session_paused m sid b) sid) sid = false) := by
  refine ⟨?_, ?_, ?_, ?_⟩
  · intro h
    simp [is_session_paused, h]
  · simp [is_session_paused, set_session_paused]
  · simp [remove_session_pause_flag]
  · simp [is_session_paused, remove_session_pause_flag]

/-- C8, witness: the pause registry laws at a concrete map and id. -/
theorem C8_pause_registry_witness :
    is_session_paused (fun _ => none) "session-9" = false ∧
    is_session_paused (set_session_paused (fun _ => none) "session-9" true) "session-9" = true ∧
    is_session_paused (remove_session_pause_flag (set_session_paused (fun _ => none) "session-9" true) "session-9") "session-9" = false := by
  refine ⟨?_, ?_, ?_⟩
  · exact (C8_pause_registry (fun _ => none) "session-9" true).1 rfl
  · exact (C8_pause_registry (fun _ => none) "session-9" true).2.1
  · exact (C8_pause_registry (fun _ => none) "session-9" true).2.2.2

/-- Counting rows by url is counting in the projected url list. -/
theorem countP_urls (tbl : List ProgressRecord) (u : String) :
    tbl.countP (fun row => decide (row.url = u)) =
      (tbl.map (fun r => r.url)).countP (fun x => decide (x = u)) := by
  induction tbl with
  | nil => rfl
  | cons a t ih => simp [List.countP_cons, ih]

/-- In a duplicate-free list a present element is counted exactly once. -/
theorem countP_eq_one_of_nodup_mem (l : List String) (u : String)
    (hn : l.Nodup) (hm : u ∈ l) : l.countP (fun x => decide (x = u)) = 1 := by
  induction l with
  | nil => cases hm
  | cons a t ih =>
    rw [List.countP_cons]
    by_cases hau : a = u
    · subst hau
      have hnot : a ∉ t := (List.nodup_cons.mp hn).1
      have hz : t.countP (fun x => decide (x = a)) = 0 := by
        rw [List.countP_eq_zero]
        intro x hx
        simp only [decide_eq_true_eq]
        intro hxa
        exact hnot (hxa ▸ hx)
      simp [hz]
    · have hm2 : u ∈ t := by
        cases hm with
        | head => exact absurd rfl hau
        | tail _ h => exact h
      rw [ih (List.nodup_cons.mp hn).2 hm2]
      simp [hau]

/-- An upsert hitting an existing url leaves the url column unchanged. -/
theorem upsert_urls_present (tbl : List ProgressRecord) (w : ProgressWrite)
    (h : tbl.any (fun row => row.url = w.url) = true) :
    (upsert_progress tbl w).map (fun r => r.url) = tbl.map (fun r => r.url) := by
  simp only [upsert_progress, h, if_true]
  rw [List.map_map]
  apply List.map_congr_left
  intro row _
  by_cases hr : row.url = w.url
  · simp [Function.comp, hr, ProgressWrite.record]
  · simp [Function.comp, hr]

/-- An upsert for an absent url appends that url to the url column. -/
theorem upsert_urls_absent (tbl : List ProgressRecord) (w : ProgressWrite)
    (h : tbl.any (fun row => row.url = w.url) = false) :
    (upsert_progress tbl w).map (fun r => r.url) =
      tbl.map (fun r => r.url) ++ [w.url] := by
  simp [upsert_progress, h, ProgressWrite.record]

/-- An upsert preserves the primary-key invariant. -/
theorem upsert_nodup (tbl : List ProgressRecord) (w : ProgressWrite)
    (hn : UrlsNodup tbl) : UrlsNodup (upsert_progress tbl w) := by
  cases hany : tbl.any (fun row => row.url = w.url) with
  | true =>
    rw [UrlsNodup, upsert_urls_present tbl w hany]
    exact hn
  | false =>
    rw [UrlsNodup, upsert_urls_absent tbl w hany]
    rw [List.nodup_append]
    refine ⟨hn, List.nodup_singleton _, ?_⟩
    intro u hu hu1
    have hue : u = w.url := by simpa using hu1
    subst hue
    obtain ⟨row, hrow, hurl⟩ := List.mem_map.mp hu
    have := List.any_eq_false.mp hany row hrow
    simp only [decide_eq_true_eq] at this
    exact this hurl

/-- A sequence of upserts preserves the primary-key invariant. -/
theorem apply_writes_nodup : ∀ (ws : List ProgressWrite) (tbl : List ProgressRecord),
    UrlsNodup tbl → UrlsNodup (apply_writes tbl ws) := by
  intro ws
  induction ws with
  | nil =>
    intro tbl hn
    exact hn
  | cons w ws ih =>
    intro tbl hn
    exact ih (upsert_progress tbl w) (upsert_nodup tbl w hn)

/-- C6: on a table satisfying the url primary-key invariant, a progress
write for an absent url appends one new row, a write for a present url
rewrites that row in place (same row count), afterwards exactly one row
holds the written url, and any drained queue of writes preserves the
one-row-per-url invariant. -/
theorem C6_progress_upsert (tbl : List ProgressRecord) (w : ProgressWrite) (ws : List ProgressWrite) :
    (UrlsNodup tbl → UrlsNodup (upsert_progress tbl w)) ∧
    (UrlsNodup tbl → (upsert_progress tbl w).countP (fun row => decide (row.url = w.url)) = 1) ∧
    (tbl.any (fun row => row.url = w.url) = false → upsert_progress tbl w = tbl ++ [w.record]) ∧
    (tbl.any (fun row => row.url = w.url) = true →
      (upsert_progress tbl w).length = tbl.length ∧
      upsert_progress tbl w = tbl.map (fun row => if row.url = w.url then w.record else row)) ∧
    (UrlsNodup tbl → UrlsNodup (apply_writes tbl ws)) := by
  refine ⟨upsert_nodup tbl w, ?_, ?_, ?_, apply_writes_nodup ws tbl⟩
  · intro hn
    rw [countP_urls]
    cases hany : tbl.any (fun row => row.url = w.url) with
    | true =>
      rw [upsert_urls_present tbl w hany]
      obtain ⟨row, hrow, hurl⟩ := List.any_eq_true.mp hany
      simp only [decide_eq_true_eq] at hurl
      exact countP_eq_one_of_nodup_mem _ _ hn (hurl ▸ List.mem_map_of_mem _ hrow)
    | false =>
      rw [upsert_urls_absent tbl w hany]
      rw [List.countP_append]
      have hz : (tbl.map (fun r => r.url)).countP (fun x => decide (x = w.url)) = 0 := by
        rw [List.countP_eq_zero]
        intro u hu
        simp only [decide_eq_true_eq]
        intro hue
        obtain ⟨row, hrow, hurl⟩ := List.mem_map.mp hu
        have := List.any_eq_false.mp hany row hrow
        simp only [decide_eq_true_eq] at this
        exact this (hurl.trans hue)
      simp [hz]
  · intro hany
    simp [upsert_progress, hany]
  · intro hany
    constructor
    · simp [upsert_progress, hany]
    · simp [upsert_progress, hany]

/-- C6, witness: an insert for a fresh url and an in-place update for a
present url on a concrete one-row table. -/
theorem C6_progress_upsert_witness :
    upsert_progress [] ⟨"https://e.com/a", "a.jpg", 0, 0, none, 0, none, "downloading", 5⟩ =
      [] ++ [ProgressWrite.record ⟨"https://e.com/a", "a.jpg", 0, 0, none, 0, none, "downloading", 5⟩] ∧
    (upsert_progress [⟨"https://e.com/a", "a.jpg", 0, 0, none, 0, none, "downloading", 5⟩]
        ⟨"https://e.com/a", "a.jpg", 1, 100, some 100, 0, none, "completed", 9⟩).length = 1 ∧
    (upsert_progress [⟨"https://e.com/a", "a.jpg", 0, 0, none, 0, none, "downloading", 5⟩]
        ⟨"https://e.com/a", "a.jpg", 1, 100, some 100, 0, none, "completed", 9⟩).countP
      (fun row => decide (row.url = "https://e.com/a")) = 1 := by
  refine ⟨?_, ?_, ?_⟩
  · exact (C6_progress_upsert [] ⟨"https://e.com/a", "a.jpg", 0, 0, none, 0, none, "downloading", 5⟩ []).2.2.1 (by decide)
  · exact ((C6_progress_upsert [⟨"https://e.com/a", "a.jpg", 0, 0, none, 0, none, "downloading", 5⟩]
      ⟨"https://e.com/a", "a.jpg", 1, 100, some 100, 0, none, "completed", 9⟩ []).2.2.2.1 (by decide)).1

  · exact (C6_progress_upsert [⟨"https://e.com/a", "a.jpg", 0, 0, none, 0, none, "downloading", 5⟩]
      ⟨"https://e.com/a", "a.jpg", 1, 100, some 100, 0, none, "completed", 9⟩ []).2.1
      (by unfold UrlsNodup; decide)

/-- The written row itself is in the upserted table. -/
theorem record_mem_upsert (tbl : List ProgressRecord) (w : ProgressWrite) :
    w.record ∈ upsert_progress tbl w := by
  cases hany : tbl.any (fun row => row.url = w.url) with
  | true =>
    simp only [upsert_progress, hany, if_true]
    obtain ⟨row, hrow, hurl⟩ := List.any_eq_true.mp hany
    simp only [decide_eq_true_eq] at hurl
    refine List.mem_map.mpr ⟨row, hrow, ?_⟩
    simp [hurl]
  | false =>
    simp [upsert_progress, hany]

/-- C7: after upserting a progress record, reading the store back yields
a row for that url whose url, filename and status equal the written
values. -/
theorem C7_round_trip (tbl : List ProgressRecord) (w : ProgressWrite) :
    ∃ row ∈ read_all (upsert_progress tbl w),
      row.url = w.url ∧ row.filename = w.filename ∧ row.status = w.status := by
  refine ⟨w.record, ?_, rfl, rfl, rfl⟩
  have hperm := List.perm_insertionSort
    (fun (a b : ProgressRecord) => b.updated_at ≤ a.updated_at) (upsert_progress tbl w)
  rw [read_all]
  exact hperm.mem_iff.mpr (record_mem_upsert tbl w)

/-- C9: a session whose records contain both a Completed and a Failed
entry summarizes as Mixed; failures with no completions summarize as
Failed; only completions summarize as Completed. -/
theorem C9_session_summary (recs : List DownloadRecord) :
    ((∃ r ∈ recs, r.status = "Completed") → (∃ r ∈ recs, r.status = "Failed") →
      summary_status recs = "Mixed") ∧
    ((∃ r ∈ recs, r.status = "Failed") → (∀ r ∈ recs, r.status ≠ "Completed") →
      summary_status recs = "Failed") ∧
    (recs ≠ [] → (∀ r ∈ recs, r.status = "Completed") → summary_status recs = "Completed") := by
  refine ⟨?_, ?_, ?_⟩
  · intro hC hF
    obtain ⟨rc, hrc, hrcs⟩ := hC
    obtain ⟨rf, hrf, hrfs⟩ := hF
    have hc : recs.any (fun r => r.status = "Completed") = true :=
      List.any_eq_true.mpr ⟨rc, hrc, by simp [hrcs]⟩
    have hf : recs.any (fun r => r.status = "Failed") = true :=
      List.any_eq_true.mpr ⟨rf, hrf, by simp [hrfs]⟩
    simp [summary_status, hc, hf]
  · intro hF hnC
    obtain ⟨rf, hrf, hrfs⟩ := hF
    have hf : recs.any (fun r => r.status = "Failed") = true :=
      List.any_eq_true.mpr ⟨rf, hrf, by simp [hrfs]⟩
    have hc : recs.any (fun r => r.status = "Completed") = false := by
      rw [List.any_eq_false]
      intro r hr
      simp only [decide_eq_true_eq]
      exact hnC r hr
    simp [summary_status, hc, hf]
  · intro hne hall
    obtain ⟨r0, hr0⟩ : ∃ r, r ∈ recs := by
      cases recs with
      | nil => exact absurd rfl hne
      | cons a t => exact ⟨a, List.mem_cons_self a t⟩
    have hc : recs.any (fun r => r.status = "Completed") = true :=
      List.any_eq_true.mpr ⟨r0, hr0, by simp [hall r0 hr0]⟩
    have hf : recs.any (fun r => r.status = "Failed") = false := by
      rw [List.any_eq_false]
      intro r hr
      simp only [decide_eq_true_eq]
      rw [hall r hr]
      decide
    have ho : recs.any (fun r => r.status ≠ "Completed" ∧ r.status ≠ "Failed") = false := by
      rw [List.any_eq_false]
      intro r hr
      simp [hall r hr]
    simp only [summary_status, hc, hf, ho]
    simp

/-- C9, witness: concrete mixed, failed-only and completed-only sessions. -/
theorem C9_session_summary_witness :
    summary_status [⟨"i1", "s", "u1", "f1", "d", some 10, "Completed", none, none, none, 0⟩,
      ⟨"i2", "s", "u2", "f2", "d", none, "Failed", none, none, none, 1⟩] = "Mixed" ∧
    summary_status [⟨"i2", "s", "u2", "f2", "d", none, "Failed", none, none, none, 1⟩] = "Failed" ∧
    summary_status [⟨"i1", "s", "u1", "f1", "d", some 10, "Completed", none, none, none, 0⟩] = "Completed" := by
  refine ⟨?_, ?_, ?_⟩
  · exact (C9_session_summary _).1
      ⟨⟨"i1", "s", "u1", "f1", "d", some 10, "Completed", none, none, none, 0⟩, by simp, rfl⟩
      ⟨⟨"i2", "s", "u2", "f2", "d", none, "Failed", none, none, none, 1⟩, by simp, rfl⟩
  · exact (C9_session_summary _).2.1
      ⟨⟨"i2", "s", "u2", "f2", "d", none, "Failed", none, none, none, 1⟩, by simp, rfl⟩
      (by intro r hr
          simp at hr
          subst hr
          decide)
  · exact (C9_session_summary _).2.2 (by simp)
      (by intro r hr
          simp at hr
          subst hr
          rfl)

/-- C10: `quick_download` returns Ok exactly for a Completed outcome;
Failed and Canceled outcomes are both mapped to Err, with their
respective messages. -/
theorem C10_quick_download (st : DownloadStatus) :
    ((∃ m, quick_download_result st = Except.ok m) ↔ ∃ sz p, st = DownloadStatus.Completed sz p) ∧
    (∀ e, st = DownloadStatus.Failed e →
      quick_download_result st = Except.error ("Download failed: " ++ e)) ∧
    (st = DownloadStatus.Canceled → quick_download_result st = Except.error "Download was canceled") := by
  cases st <;> simp [quick_download_result]

/-- C10, witness: the three terminal outcomes at concrete values. -/
theorem C10_quick_download_witness :
    (∃ m, quick_download_result (DownloadStatus.Completed 512 "/tmp/f") = Except.ok m) ∧
    quick_download_result (DownloadStatus.Failed "HTTP 404 Not Found") =
      Except.error ("Download failed: " ++ "HTTP 404 Not Found") ∧
    quick_download_result DownloadStatus.Canceled = Except.error "Download was canceled" := by
  refine ⟨?_, ?_, ?_⟩
  · exact (C10_quick_download (DownloadStatus.Completed 512 "/tmp/f")).1.mpr ⟨512, "/tmp/f", rfl⟩
  · exact (C10_quick_download (DownloadStatus.Failed "HTTP 404 Not Found")).2.1 "HTTP 404 Not Found" rfl
  · exact (C10_quick_download DownloadStatus.Canceled).2.2 rfl

end Icnx
